import Mathlib

/-
Verification of the Intent evaluator (src/src/lib.rs): a pure tree-rewriting
evaluator over a three-shape value type (Error, Atom, Cell).  Atoms carry the
Rust type i32; integer arithmetic on them is modelled as unbounded integers
with explicit two's-complement wraparound into the i32 range.
-/

namespace Intent

/-- The Value (Noun) type from the source: the error sentinel, an i32 atom
(modelled as an unbounded integer, with explicit wraparound applied wherever
the source performs i32 arithmetic), and an ordered pair of Values. -/
inductive Value where
  | Error : Value
  | Atom : Int → Value
  | Cell : Value → Value → Value
deriving DecidableEq

/-- Two's-complement wraparound into the i32 range, modelling the arithmetic
of the Rust type i32 that the source uses for atoms. -/
def wrap32 (x : Int) : Int := (x + 2147483648) % 4294967296 - 2147483648

/-- Number of nodes of a Value; used to bound the recursion depth of the
fueled transcriptions below. -/
def size : Value → Nat
  | .Error => 1
  | .Atom _ => 1
  | .Cell a b => 1 + size a + size b

/-- Value.atom_value from the source: the integer if the Value is an Atom. -/
def atom_value : Value → Option Int
  | .Atom a => some a
  | _ => none

/-- Value.cell_content from the source: the pair of children if the Value is
a Cell. -/
def cell_content : Value → Option (Value × Value)
  | .Cell a b => some (a, b)
  | _ => none

/-- kind from the source: Error for Error, Atom 0 for any Atom, Atom 1 for
any Cell. -/
def kind : Value → Value
  | .Error => .Error
  | .Atom _ => .Atom 0
  | .Cell _ _ => .Atom 1

/-- sub_cell from the source: broadcast-style pairwise structural
subtraction.  Atom minus Atom is i32 subtraction (wraparound); an atom is
distributed across the other side when that side is a cell; two cells are
zipped; every remaining case (an Error on either side) is Error. -/
def sub_cell : Value → Value → Value
  | .Atom a, .Atom b => .Atom (wrap32 (a - b))
  | .Cell a b, .Atom c => .Cell (sub_cell a (.Atom c)) (sub_cell b (.Atom c))
  | .Atom a, .Cell b c => .Cell (sub_cell (.Atom a) b) (sub_cell (.Atom a) c)
  | .Cell a b, .Cell c d => .Cell (sub_cell a c) (sub_cell b d)
  | _, _ => .Error

/-- sub from the source: Error propagates, an atom is negated (i32 negation,
hence wraparound), a cell delegates to sub_cell. -/
def sub : Value → Value
  | .Error => .Error
  | .Atom a => .Atom (wrap32 (-a))
  | .Cell a b => sub_cell a b

/-- eq_cell from the source.  The source's Cell case is the nested call
eq_cell (eq_cell a1 b1) (eq_cell a2 b2); since eq_cell always returns an
atom (lemma eq_cell_isBool below), that outer call always lands in the
Atom/Atom base case, which is inlined here so the recursion is structural.
The fueled transcription eqCellF below follows the source call-for-call and
theorem eqCellF_spec proves this function computes exactly that recursion. -/
def eq_cell : Value → Value → Value
  | .Atom a, .Atom b => .Atom (if a = b then 1 else 0)
  | .Cell a1 a2, .Cell b1 b2 =>
      match eq_cell a1 b1, eq_cell a2 b2 with
      | .Atom x, .Atom y => .Atom (if x = y then 1 else 0)
      | _, _ => .Atom 0
  | _, _ => .Atom 0

/-- eq from the source: Error propagates, a bare atom is Error (equality
needs a pair), a cell delegates to eq_cell. -/
def eq : Value → Value
  | .Error => .Error
  | .Atom _ => .Error
  | .Cell a b => eq_cell a b

/-- swap from the source: Error and atoms unchanged, a cell's children are
exchanged. -/
def swap : Value → Value
  | .Error => .Error
  | .Atom a => .Atom a
  | .Cell a b => .Cell b a

/-- eval from the source: the dispatcher of the version under src/, which
handles opcodes 0 to 3.  The source matches the opcode integer against the
literal patterns 0, 1, 2, 3 with a catch-all; that match is rendered as a
chain of equality tests. -/
def eval : Value → Value
  | .Error => .Error
  | .Atom _ => .Error
  | .Cell a b =>
    match atom_value a with
    | some k =>
      if k = 0 then kind b
      else if k = 1 then sub b
      else if k = 2 then eq b
      else if k = 3 then swap b
      else .Error
    | none => .Error

/-- Fueled transcription of the source's sub_cell, call-for-call: every
recursive call costs one unit of fuel and none models a call that did not
complete within the given depth.  Used to state termination of the source
recursion. -/
def subCellF : Nat → Value → Value → Option Value
  | 0, _, _ => none
  | _ + 1, .Atom a, .Atom b => some (.Atom (wrap32 (a - b)))
  | n + 1, .Cell a b, .Atom c =>
      match subCellF n a (.Atom c), subCellF n b (.Atom c) with
      | some l, some r => some (.Cell l r)
      | _, _ => none
  | n + 1, .Atom a, .Cell b c =>
      match subCellF n (.Atom a) b, subCellF n (.Atom a) c with
      | some l, some r => some (.Cell l r)
      | _, _ => none
  | n + 1, .Cell a b, .Cell c d =>
      match subCellF n a c, subCellF n b d with
      | some l, some r => some (.Cell l r)
      | _, _ => none
  | _ + 1, _, _ => some .Error

/-- Fueled transcription of the source's eq_cell, call-for-call: in the
Cell/Cell case the two inner recursive calls are made first and the outer
recursive call is then made on their results, exactly as in the source. -/
def eqCellF : Nat → Value → Value → Option Value
  | 0, _, _ => none
  | _ + 1, .Atom a, .Atom b => some (.Atom (if a = b then 1 else 0))
  | n + 1, .Cell a1 a2, .Cell b1 b2 =>
      match eqCellF n a1 b1, eqCellF n a2 b2 with
      | some r1, some r2 => eqCellF n r1 r2
      | _, _ => none
  | _ + 1, _, _ => some (.Atom 0)

/-- Fueled sub: dispatches like sub, with the cell case running the fueled
sub_cell. -/
def subF (n : Nat) : Value → Option Value
  | .Error => some .Error
  | .Atom a => some (.Atom (wrap32 (-a)))
  | .Cell a b => subCellF n a b

/-- Fueled eq: dispatches like eq, with the cell case running the fueled
eq_cell. -/
def eqF (n : Nat) : Value → Option Value
  | .Error => some .Error
  | .Atom _ => some .Error
  | .Cell a b => eqCellF n a b

/-- Fueled eval: the src dispatcher with its recursive callees (sub and eq)
replaced by their fueled transcriptions.  eval itself makes no recursive
call in the version under src/, so no fuel is consumed at this level. -/
def evalF (n : Nat) : Value → Option Value
  | .Error => some .Error
  | .Atom _ => some .Error
  | .Cell a b =>
    match atom_value a with
    | some k =>
      if k = 0 then some (kind b)
      else if k = 1 then subF n b
      else if k = 2 then eqF n b
      else if k = 3 then some (swap b)
      else some .Error
    | none => some .Error

/-- Modelled from the spec: the repository's superset evaluator, the one
that additionally implements opcode 4 (compose) and opcode 5 (select), is
described in spec sections 4.5 and 9 but is not present under src/ (src/
holds only the simpler dispatcher, eval above).  Its dispatch is modelled
here from the spec's words.  Because opcode 4 re-evaluates a freshly built
pair and therefore permits unbounded recursion, the model takes explicit
fuel: every call costs one unit and none means the evaluation did not
complete within the given depth. -/
def evalFullF : Nat → Value → Option Value
  | 0, _ => none
  | n + 1, v =>
    match v with
    | .Error => some .Error
    | .Atom _ => some .Error
    | .Cell a b =>
      match atom_value a with
      | some k =>
        if k = 0 then some (kind b)
        else if k = 1 then some (sub b)
        else if k = 2 then some (eq b)
        else if k = 3 then some (swap b)
        else if k = 4 then
          match b with
          | .Cell f (.Cell x y) =>
            match evalFullF n (.Cell f x), evalFullF n (.Cell f y) with
            | some fx, some fy => evalFullF n (.Cell fx fy)
            | _, _ => none
          | _ => some .Error
        else if k = 5 then
          match b with
          | .Cell s (.Cell bb cc) =>
            match s with
            | .Atom sv =>
              if sv = 0 then some bb
              else if sv = 1 then some cc
              else some .Error
            | _ => some .Error
          | _ => some .Error
        else some .Error
      | none => some .Error

end Intent

namespace Intent

/-- Every Value has at least one node. -/
theorem size_pos (v : Value) : 1 ≤ size v := by
  cases v <;> simp [size]
  omega

/-- Wraparound is the identity on integers already inside the i32 range. -/
theorem wrap32_eq_of_range (x : Int) (h1 : -2147483648 ≤ x) (h2 : x < 2147483648) :
    wrap32 x = x := by
  unfold wrap32
  rw [Int.emod_eq_of_lt (by omega) (by omega)]
  omega

/-- eq_cell only ever returns Atom 0 or Atom 1. -/
theorem eq_cell_isBool (a b : Value) :
    eq_cell a b = .Atom 0 ∨ eq_cell a b = .Atom 1 := by
  cases a <;> cases b <;> simp only [eq_cell]
  case Atom.Atom i j => split <;> simp
  case Cell.Cell a1 a2 b1 b2 =>
    split
    · split <;> simp
    · simp
  all_goals simp

/-- The source's nested Cell/Cell recursion for eq_cell: applying eq_cell to
the two sub-results agrees with the inlined base case, because the
sub-results are always atoms. -/
theorem eq_cell_cell (a1 a2 b1 b2 : Value) :
    eq_cell (.Cell a1 a2) (.Cell b1 b2) = eq_cell (eq_cell a1 b1) (eq_cell a2 b2) := by
  rcases eq_cell_isBool a1 b1 with h1 | h1 <;> rcases eq_cell_isBool a2 b2 with h2 | h2 <;>
    simp [eq_cell, h1, h2]

/-- The fueled transcription of sub_cell terminates on every input once the
fuel exceeds the combined node count, and computes sub_cell. -/
theorem subCellF_spec : ∀ (n : Nat) (a b : Value), size a + size b ≤ n →
    subCellF n a b = some (sub_cell a b) := by
  intro n
  induction n with
  | zero =>
    intro a b h
    have := size_pos a
    have := size_pos b
    omega
  | succ n ih =>
    intro a b h
    cases a with
    | Error => cases b <;> simp [subCellF, sub_cell]
    | Atom a =>
      cases b with
      | Error => simp [subCellF, sub_cell]
      | Atom b => simp [subCellF, sub_cell]
      | Cell b c =>
        have hb : size (Value.Atom a) + size b ≤ n := by
          have := size_pos c; simp [size] at h ⊢; omega
        have hc : size (Value.Atom a) + size c ≤ n := by
          have := size_pos b; simp [size] at h ⊢; omega
        simp [subCellF, sub_cell, ih _ _ hb, ih _ _ hc]
    | Cell a1 a2 =>
      cases b with
      | Error => simp [subCellF, sub_cell]
      | Atom c =>
        have h1 : size a1 + size (Value.Atom c) ≤ n := by
          have := size_pos a2; simp [size] at h ⊢; omega
        have h2 : size a2 + size (Value.Atom c) ≤ n := by
          have := size_pos a1; simp [size] at h ⊢; omega
        simp [subCellF, sub_cell, ih _ _ h1, ih _ _ h2]
      | Cell c d =>
        have h1 : size a1 + size c ≤ n := by
          have := size_pos a2; have := size_pos d; simp [size] at h ⊢; omega
        have h2 : size a2 + size d ≤ n := by
          have := size_pos a1; have := size_pos c; simp [size] at h ⊢; omega
        simp [subCellF, sub_cell, ih _ _ h1, ih _ _ h2]

/-- The fueled transcription of eq_cell terminates on every input once the
fuel exceeds the node count of the smaller side, and computes eq_cell. -/
theorem eqCellF_spec : ∀ (n : Nat) (a b : Value), min (size a) (size b) ≤ n →
    eqCellF n a b = some (eq_cell a b) := by
  intro n
  induction n with
  | zero =>
    intro a b h
    have := size_pos a
    have := size_pos b
    omega
  | succ n ih =>
    intro a b h
    cases a with
    | Error => cases b <;> simp [eqCellF, eq_cell]
    | Atom a => cases b <;> simp [eqCellF, eq_cell]
    | Cell a1 a2 =>
      cases b with
      | Error => simp [eqCellF, eq_cell]
      | Atom b => simp [eqCellF, eq_cell]
      | Cell b1 b2 =>
        have pa1 := size_pos a1; have pa2 := size_pos a2
        have pb1 := size_pos b1; have pb2 := size_pos b2
        have h1 : min (size a1) (size b1) ≤ n := by simp [size] at h; omega
        have h2 : min (size a2) (size b2) ≤ n := by simp [size] at h; omega
        have hn : 1 ≤ n := by simp [size] at h; omega
        rw [eq_cell_cell]
        simp only [eqCellF, ih _ _ h1, ih _ _ h2]
        exact ih _ _ (by
          rcases eq_cell_isBool a1 b1 with hb | hb <;>
            rcases eq_cell_isBool a2 b2 with hc | hc <;>
              rw [hb, hc] <;> simp [size] <;> omega)

/-- The fueled sub terpinates and computes sub whenever the fuel covers the
node count of the input. -/
theorem subF_spec (n : Nat) (v : Value) (h : size v ≤ n) : subF n v = some (sub v) := by
  cases v with
  | Error => rfl
  | Atom a => rfl
  | Cell a b =>
    have hab : size a + size b ≤ n := by simp [size] at h; omega
    simp [subF, sub, subCellF_spec n a b hab]

/-- The fueled eq terminates and computes eq whenever the fuel covers the
node count of the input. -/
theorem eqF_spec (n : Nat) (v : Value) (h : size v ≤ n) : eqF n v = some (eq v) := by
  cases v with
  | Error => rfl
  | Atom a => rfl
  | Cell a b =>
    have hab : min (size a) (size b) ≤ n := by
      have := size_pos a; have := size_pos b; simp [size] at h; omega
    simp [eqF, eq, eqCellF_spec n a b hab]

/-- The fueled dispatcher terminates and computes eval whenever the fuel
covers the node count of the input. -/
theorem evalF_spec (n : Nat) (v : Value) (h : size v ≤ n) : evalF n v = some (eval v) := by
  cases v with
  | Error => rfl
  | Atom a => rfl
  | Cell a b =>
    have hb : size b ≤ n := by have := size_pos a; simp [size] at h; omega
    cases a with
    | Error => rfl
    | Cell a1 a2 => rfl
    | Atom k =>
      by_cases h0 : k = 0
      · simp [evalF, eval, atom_value, h0]
      by_cases h1 : k = 1
      · simp [evalF, eval, atom_value, h0, h1, subF_spec n b hb]
      by_cases h2 : k = 2
      · simp [evalF, eval, atom_value, h0, h1, h2, eqF_spec n b hb]
      by_cases h3 : k = 3
      · simp [evalF, eval, atom_value, h0, h1, h2, h3]
      · simp [evalF, eval, atom_value, h0, h1, h2, h3]

end Intent

namespace Intent

/-- Claim C1: in the spec-modelled superset evaluator, opcode 4 (compose)
evaluates f against x and against y and then evaluates the resulting pair as
a new opcode invocation; any operand not of the shape Cell(f, Cell(x, y))
yields Error.  The evaluator is fueled because compose permits unbounded
recursion; each recursive evaluation runs at the decremented fuel. -/
theorem evalFull_compose (n : Nat) (f x y fx fy r b : Value) :
    (evalFullF n (.Cell f x) = some fx → evalFullF n (.Cell f y) = some fy →
      evalFullF n (.Cell fx fy) = some r →
      evalFullF (n + 1) (.Cell (.Atom 4) (.Cell f (.Cell x y))) = some r) ∧
    ((∀ g u w, b ≠ .Cell g (.Cell u w)) →
      evalFullF (n + 1) (.Cell (.Atom 4) b) = some .Error) := by
  constructor
  · intro h1 h2 h3
    show (match evalFullF n (.Cell f x), evalFullF n (.Cell f y) with
          | some fx, some fy => evalFullF n (.Cell fx fy)
          | _, _ => none) = some r
    rw [h1, h2]
    exact h3
  · intro hb
    cases b with
    | Error => rfl
    | Atom a => rfl
    | Cell g rest =>
      cases rest with
      | Error => rfl
      | Atom u => rfl
      | Cell u w => exact absurd rfl (hb g u w)

/-- Witness for C1: composing kind (opcode 0) over the pair of an atom and a
cell evaluates both sides and then evaluates the resulting pair, and a
malformed compose operand yields Error. -/
theorem evalFull_compose_witness :
    evalFullF 2 (.Cell (.Atom 4) (.Cell (.Atom 0) (.Cell (.Atom 7) (.Cell (.Atom 1) (.Atom 2))))) =
      some (.Atom 0) ∧
    evalFullF 2 (.Cell (.Atom 4) (.Atom 9)) = some .Error := by
  constructor
  · exact (evalFull_compose 1 (.Atom 0) (.Atom 7) (.Cell (.Atom 1) (.Atom 2)) (.Atom 0)
      (.Atom 1) (.Atom 0) (.Atom 9)).1 (by decide) (by decide) (by decide)
  · exact (evalFull_compose 1 (.Atom 0) (.Atom 7) (.Cell (.Atom 1) (.Atom 2)) (.Atom 0)
      (.Atom 1) (.Atom 0) (.Atom 9)).2 (fun g u w h => Value.noConfusion h)

/-- Claim C2: in the spec-modelled superset evaluator, opcode 5 (select)
with selector Atom 0 returns the first element of the pair and with selector
Atom 1 the second; any other selector, and any operand not of the shape
Cell(selector, Cell(b, c)), yields Error. -/
theorem evalFull_select (n : Nat) (b c s op : Value) :
    evalFullF (n + 1) (.Cell (.Atom 5) (.Cell (.Atom 0) (.Cell b c))) = some b ∧
    evalFullF (n + 1) (.Cell (.Atom 5) (.Cell (.Atom 1) (.Cell b c))) = some c ∧
    (s ≠ .Atom 0 → s ≠ .Atom 1 →
      evalFullF (n + 1) (.Cell (.Atom 5) (.Cell s (.Cell b c))) = some .Error) ∧
    ((∀ t u w, op ≠ .Cell t (.Cell u w)) →
      evalFullF (n + 1) (.Cell (.Atom 5) op) = some .Error) := by
  refine ⟨rfl, rfl, fun hs0 hs1 => ?_, fun hop => ?_⟩
  · cases s with
    | Error => rfl
    | Cell p q => rfl
    | Atom sv =>
      have v0 : sv ≠ 0 := fun hv => hs0 (by rw [hv])
      have v1 : sv ≠ 1 := fun hv => hs1 (by rw [hv])
      show (if sv = 0 then some b else if sv = 1 then some c else some Value.Error) =
        some Value.Error
      rw [if_neg v0, if_neg v1]
  · cases op with
    | Error => rfl
    | Atom a => rfl
    | Cell t rest =>
      cases rest with
      | Error => rfl
      | Atom u => rfl
      | Cell u w => exact absurd rfl (hop t u w)

/-- Witness for C2: selecting with selector 9 and with a bare atom operand
both yield Error (the positive selections are hypothesis-free and follow by
instantiating the same theorem). -/
theorem evalFull_select_witness :
    evalFullF 1 (.Cell (.Atom 5) (.Cell (.Atom 9) (.Cell (.Atom 1) (.Atom 2)))) =
      some .Error ∧
    evalFullF 1 (.Cell (.Atom 5) (.Atom 3)) = some .Error := by
  constructor
  · exact (evalFull_select 0 (.Atom 1) (.Atom 2) (.Atom 9) (.Atom 3)).2.2.1
      (by decide) (by decide)
  · exact (evalFull_select 0 (.Atom 1) (.Atom 2) (.Atom 9) (.Atom 3)).2.2.2
      (fun t u w h => Value.noConfusion h)

/-- Counterexample for C3 as stated: atoms are i32, not unconstrained, so
pairwise subtraction is not exact unbounded arithmetic; at the i32 minimum
the difference wraps instead of producing the out-of-range integer. -/
theorem sub_cell_unbounded_counterexample :
    ¬ (sub_cell (.Atom (-2147483648)) (.Atom 1) = .Atom (-2147483649)) := by
  simp [sub_cell]
  decide

/-- Claim C3 (amended): atoms carry 32-bit signed integers; pairwise
subtraction of Atom b from Atom a yields exactly Atom (a - b) whenever the
difference fits in the i32 range, and wraps modulo 2 to the 32 otherwise. -/
theorem sub_cell_atom_exact (a b : Int) (h1 : -2147483648 ≤ a - b)
    (h2 : a - b < 2147483648) :
    sub_cell (.Atom a) (.Atom b) = .Atom (a - b) := by
  simp [sub_cell, wrap32_eq_of_range _ h1 h2]

/-- Witness for the amended C3 at an in-range difference. -/
theorem sub_cell_atom_exact_witness :
    sub_cell (.Atom 5) (.Atom 3) = .Atom 2 :=
  sub_cell_atom_exact 5 3 (by decide) (by decide)

/-- Claim C4: the dispatcher delegates opcode 0 to kind, 1 to sub, 2 to eq
and 3 to swap, and kind maps Error to Error, atoms to Atom 0 and cells to
Atom 1. -/
theorem eval_dispatch (x : Value) :
    eval (.Cell (.Atom 0) x) = kind x ∧ eval (.Cell (.Atom 1) x) = sub x ∧
    eval (.Cell (.Atom 2) x) = eq x ∧ eval (.Cell (.Atom 3) x) = swap x ∧
    kind .Error = .Error ∧ (∀ i : Int, kind (.Atom i) = .Atom 0) ∧
    (∀ a b : Value, kind (.Cell a b) = .Atom 1) :=
  ⟨rfl, rfl, rfl, rfl, rfl, fun _ => rfl, fun _ _ => rfl⟩

/-- Counterexample for C5 as stated: sub on an atom is not exact negation;
at the i32 minimum the negation wraps back to the minimum itself. -/
theorem sub_negate_min_counterexample :
    ¬ (sub (.Atom (-2147483648)) = .Atom 2147483648) := by decide

/-- Claim C5 (amended): sub follows the specified recursive definition with
i32 (wrapping) arithmetic: Error propagates, an atom is negated with
wraparound, a cell delegates to sub_cell, which subtracts atom from atom
with wraparound, distributes an atom operand across the other side's cell,
zips cell against cell pairwise, and returns Error whenever either pairwise
operand is Error. -/
theorem sub_spec (v a b c d : Value) (i j : Int) :
    sub .Error = .Error ∧ sub (.Atom i) = .Atom (wrap32 (-i)) ∧
    sub (.Cell a b) = sub_cell a b ∧
    sub_cell (.Atom i) (.Atom j) = .Atom (wrap32 (i - j)) ∧
    sub_cell (.Cell a b) (.Atom i) = .Cell (sub_cell a (.Atom i)) (sub_cell b (.Atom i)) ∧
    sub_cell (.Atom i) (.Cell a b) = .Cell (sub_cell (.Atom i) a) (sub_cell (.Atom i) b) ∧
    sub_cell (.Cell a b) (.Cell c d) = .Cell (sub_cell a c) (sub_cell b d) ∧
    sub_cell .Error v = .Error ∧ sub_cell v .Error = .Error := by
  refine ⟨rfl, rfl, rfl, ?_, ?_, ?_, ?_, ?_, ?_⟩
  · simp [sub_cell]
  · simp [sub_cell]
  · simp [sub_cell]
  · simp [sub_cell]
  · cases v <;> simp [sub_cell]
  · cases v <;> simp [sub_cell]

/-- Claim C6: eq follows the specified recursive definition exactly: Error
propagates, a bare atom at top level is Error, a cell delegates to eq_cell;
eq_cell compares two atoms to Atom 1 or Atom 0, combines two cells by
re-applying eq_cell to the pair of sub-results (not by boolean conjunction),
and returns Atom 0 for every other shape combination. -/
theorem eq_spec (u v a1 a2 b1 b2 : Value) (i j : Int) :
    eq .Error = .Error ∧ eq (.Atom i) = .Error ∧ eq (.Cell u v) = eq_cell u v ∧
    eq_cell (.Atom i) (.Atom j) = .Atom (if i = j then 1 else 0) ∧
    eq_cell (.Cell a1 a2) (.Cell b1 b2) = eq_cell (eq_cell a1 b1) (eq_cell a2 b2) ∧
    eq_cell (.Atom i) (.Cell a1 a2) = .Atom 0 ∧
    eq_cell (.Cell a1 a2) (.Atom i) = .Atom 0 ∧
    eq_cell .Error u = .Atom 0 ∧ eq_cell u .Error = .Atom 0 :=
  ⟨rfl, rfl, rfl, rfl, eq_cell_cell a1 a2 b1 b2, rfl, rfl,
    by cases u <;> rfl, by cases u <;> rfl⟩

/-- Claim C7: eval returns Error on every malformed input: a top-level Error
or bare atom, a cell whose opcode is not an atom, and a cell whose opcode
atom lies outside 0..5. -/
theorem eval_malformed (b p q : Value) (i k : Int) :
    eval .Error = .Error ∧ eval (.Atom i) = .Error ∧
    eval (.Cell .Error b) = .Error ∧ eval (.Cell (.Cell p q) b) = .Error ∧
    (k ≠ 0 → k ≠ 1 → k ≠ 2 → k ≠ 3 → k ≠ 4 → k ≠ 5 →
      eval (.Cell (.Atom k) b) = .Error) := by
  refine ⟨rfl, rfl, rfl, rfl, fun h0 h1 h2 h3 h4 h5 => ?_⟩
  show (if k = 0 then kind b else if k = 1 then sub b else if k = 2 then eq b
        else if k = 3 then swap b else Value.Error) = Value.Error
  rw [if_neg h0, if_neg h1, if_neg h2, if_neg h3]

/-- Witness for C7: the out-of-range opcode 7 yields Error. -/
theorem eval_malformed_witness : eval (.Cell (.Atom 7) (.Atom 0)) = .Error :=
  (eval_malformed (.Atom 0) .Error .Error 0 7).2.2.2.2 (by decide) (by decide)
    (by decide) (by decide) (by decide) (by decide)

/-- Claim C8: swap maps Error to Error, keeps atoms unchanged, exchanges the
children of a cell, and is involutive. -/
theorem swap_spec (x a b : Value) (i : Int) :
    swap .Error = .Error ∧ swap (.Atom i) = .Atom i ∧
    swap (.Cell a b) = .Cell b a ∧ swap (swap x) = x :=
  ⟨rfl, rfl, rfl, by cases x <;> rfl⟩

/-- Claim C9: the evaluator and its recursive primitives are total: the
fueled transcriptions of the source recursions (evalF, subF, eqF), in which
every recursive call costs fuel and running out of fuel is observable as
none, complete on every input once the fuel covers the input's node count,
and they compute the pure functions eval, sub and eq, so the same input
always yields the same output.  kind and swap make no recursive call. -/
theorem eval_total (v : Value) :
    ∃ n : Nat, evalF n v = some (eval v) ∧ subF n v = some (sub v) ∧
      eqF n v = some (eq v) :=
  ⟨size v, evalF_spec (size v) v le_rfl, subF_spec (size v) v le_rfl,
    eqF_spec (size v) v le_rfl⟩

/-- Claim C10: an Error nested below the top pairwise level of sub's input
does not surface as a top-level Error: here sub returns a cell containing
Error as a sub-value. -/
theorem sub_nested_error :
    sub (.Cell (.Cell .Error (.Atom 1)) (.Atom 2)) = .Cell .Error (.Atom (-1)) := by
  simp [sub, sub_cell]
  decide

end Intent
